import Mathlib

/-!
# Verification of the lineage graph engine (`datacube/model/lineage.py`)

A shallow embedding of the lineage engine: `LineageDirection`, `LineageTree`,
`LineageRelation` and the `LineageRelations` collection with its operations
`merge_new_home`, `merge_new_lineage_relation`, `_merge_new_relation`,
`_merge_new_node`, `merge`, `merge_tree`, `relations_diff` and `extract_tree`.

Modelling conventions:
* Dataset ids (`uuid.UUID`) are modelled as `Nat` (opaque tokens with equality).
* Python `dict`s (insertion ordered; `d[k] = v` keeps the position of an
  existing key) are modelled as association lists with `alookup` / `ainsert`.
* Python `set`s whose use is membership only are modelled as `List Nat` with
  append-if-absent insertion.
* Exceptions are modelled with `Except LinErr`; the `LinErr` constructors are
  in one-to-one correspondence with the `raise` sites of the source (each
  carries the data interpolated into the exception message).  `pyTypeError`
  models a Python `TypeError` (the source's `relations_diff` iterates dicts
  without `.items()` and assigns into lists by key, which raises `TypeError`
  at runtime).
* `extract_tree` recurses along the stored adjacency and terminates only
  because of its visited-set check; it is embedded with an explicit fuel that
  over-approximates the longest possible simple path
  (`by_source.length + by_derived.length + 2`).  `fuelExhausted` is the
  embedding artifact for fuel running out; it is provably unreachable at this
  bound (see `extract_no_fuel_error`).
-/

/-- Lookup in an insertion-ordered association list (Python `d[k]` / `d.get(k)`). -/
def alookup {K V : Type} [DecidableEq K] : List (K × V) → K → Option V
  | [], _ => none
  | (k, v) :: rest, key => if k = key then some v else alookup rest key

/-- Python `d[k] = v`: update in place when the key exists, append otherwise. -/
def ainsert {K V : Type} [DecidableEq K] : List (K × V) → K → V → List (K × V)
  | [], key, val => [(key, val)]
  | (k, v) :: rest, key, val =>
      if k = key then (k, val) :: rest else (k, v) :: ainsert rest key val

/-- Python `set.add`: append-if-absent (only membership is ever observed). -/
def sinsert {K : Type} [DecidableEq K] (l : List K) (x : K) : List K :=
  if x ∈ l then l else l ++ [x]

/-- `LineageDirection`: the direction sense of a `LineageTree`
(SOURCES: the tree contains the source datasets of the root;
DERIVED: the tree contains the derived datasets of the root). -/
inductive LineageDirection where
  | SOURCES
  | DERIVED
deriving DecidableEq, Repr

/-- `LineageDirection.opposite`. -/
def LineageDirection.opposite : LineageDirection → LineageDirection
  | .SOURCES => .DERIVED
  | .DERIVED => .SOURCES

/-- A node in a dataset lineage tree: direction, dataset id, an optional
classifier-keyed mapping of children (`none` = may have children in the
database, `some []` = no children) and an optional home string. -/
inductive LineageTree where
  | mk (direction : LineageDirection) (dataset_id : Nat)
       (children : Option (List (String × List LineageTree)))
       (home : Option String)

def LineageTree.direction : LineageTree → LineageDirection
  | .mk d _ _ _ => d

def LineageTree.dataset_id : LineageTree → Nat
  | .mk _ i _ _ => i

def LineageTree.children : LineageTree → Option (List (String × List LineageTree))
  | .mk _ _ c _ => c

def LineageTree.home : LineageTree → Option String
  | .mk _ _ _ h => h

/-- The exception family of the engine.  Every constructor except
`pyTypeError` and `fuelExhausted` corresponds to one
`InconsistentLineageException` raise site of the source. -/
inductive LinErr where
  /-- `child_datasets`: "LineageTrees must be acyclic" -/
  | treeMustBeAcyclic
  /-- `merge_new_home`: "Tree contains inconsistent homes for dataset {id}" -/
  | inconsistentHomes (id_ : Nat)
  /-- `merge_new_lineage_relation`: "Dataset {ids[0]} depends on {ids[1]} with inconsistent classifiers." -/
  | inconsistentClassifiers (a b : Nat)
  /-- `merge_tree`: "Tree contains both derived and source nodes" -/
  | mixedDirections
  /-- `_merge_new_node`: "Self-reference or duplicate subtrees detected: risk of infinite recursion." -/
  | duplicateSubtrees
  /-- `extract_tree`: "LineageTrees must be acyclic: {root}" -/
  | extractMustBeAcyclic (root : Nat)
  /-- A Python `TypeError` (not an `InconsistentLineageException`). -/
  | pyTypeError
  /-- Fuel artifact of the embedding of `extract_tree`; unreachable at the
  fuel bound used by the `extract_tree` wrapper. -/
  | fuelExhausted
deriving DecidableEq, Repr

/-- `LineageRelation`: a single directed classified edge. -/
structure LineageRelation where
  classifier : String
  source_id : Nat
  derived_id : Nat
deriving DecidableEq, Repr

/-- The `LineageRelations` collection: an indexed collection of lineage
relations (field names follow the source). -/
structure LineageRelations where
  /-- Internal index of id/home relations. -/
  _homes : List (Nat × Option String)
  /-- Mapping `(source_id, derived_id) ↦ classifier` (as built by
  `merge_new_lineage_relation`, which keys on `(rel.source_id, rel.derived_id)`). -/
  _relations_idx : List ((Nat × Nat) × String)
  /-- Mapping `(ids) ↦ LineageTree` merged so far (duplicate-subtree guard). -/
  _trees_idx : List ((Nat × Nat) × LineageTree)
  /-- The distinct `LineageRelation`s this object represents, in first-seen order. -/
  relations : List LineageRelation
  /-- Mapping source id to mapping of derived id to classifier. -/
  by_source : List (Nat × List (Nat × String))
  /-- Mapping derived id to mapping of source id to classifier. -/
  by_derived : List (Nat × List (Nat × String))
  /-- Dataset ids known to this object. -/
  dataset_ids : List Nat

/-- A fresh empty `LineageRelations` (the default `__init__`). -/
def emptyRelations : LineageRelations :=
  ⟨[], [], [], [], [], [], []⟩

/-- Python truthiness of the home value stored in `_homes`
(`None` and `""` are falsy). -/
def truthyStr : Option String → Bool
  | none => false
  | some s => !(s = "")

/-- Python truthiness of `tree.children` (`None` and `{}` are falsy). -/
def truthyChildren : Option (List (String × List LineageTree)) → Bool
  | none => false
  | some items => !items.isEmpty

/- `LineageTree.child_datasets`: the set of all ids appearing anywhere below
the node, raising if the node's own id appears below one of its children.
The two inner loops (over `children.items()` and over each child list) are
the `_items` and `_kids` functions. -/
mutual

def LineageTree.child_datasets : LineageTree → Except LinErr (List Nat)
  | .mk _ _ none _ => .ok []
  | .mk _ dsid (some items) _ => LineageTree.child_datasets_items dsid items

def LineageTree.child_datasets_items (dsid : Nat) :
    List (String × List LineageTree) → Except LinErr (List Nat)
  | [] => .ok []
  | (_, kids) :: rest => do
      let s1 ← LineageTree.child_datasets_kids dsid kids
      let s2 ← LineageTree.child_datasets_items dsid rest
      .ok (s1 ++ s2)

def LineageTree.child_datasets_kids (dsid : Nat) :
    List LineageTree → Except LinErr (List Nat)
  | [] => .ok []
  | child :: rest => do
      let subchildren ← child.child_datasets
      let subchildren := subchildren ++ [child.dataset_id]
      if dsid ∈ subchildren then throw .treeMustBeAcyclic
      let s2 ← LineageTree.child_datasets_kids dsid rest
      .ok (subchildren ++ s2)

end

/-- The body of `extract_tree`, by recursion on an explicit fuel.  The inner
loop builds the `children` dict, grouping each recursively extracted subtree
under its classifier; every recursive call receives a copy of the visited set
that already contains `root` (`set(so_far)` after `so_far.add(root)`). -/
def extractAux (self : LineageRelations) (direction : LineageDirection) :
    Nat → Nat → List Nat → Except LinErr LineageTree
  | 0, _, _ => throw .fuelExhausted
  | fuel + 1, root, so_far =>
      if root ∈ so_far then throw (.extractMustBeAcyclic root)
      else
        let so_far' := root :: so_far
        let subtrees :=
          match direction with
          | .SOURCES => (alookup self.by_source root).getD []
          | .DERIVED => (alookup self.by_derived root).getD []
        do
          let children ← subtrees.foldlM (fun children p => do
            let subtree ← extractAux self direction fuel p.1 so_far'
            match alookup children p.2 with
            | some kids => pure (ainsert children p.2 (kids ++ [subtree]))
            | none => pure (children ++ [(p.2, [subtree])])) []
          .ok (.mk direction root (some children) ((alookup self._homes root).join))

/-- The body of the inner loop of `extractAux`, as a named function (for
stating lemmas about the fold; `extractAux_succ` below shows it is literally
the loop body). -/
def extractChildStep (self : LineageRelations) (direction : LineageDirection)
    (fuel : Nat) (so_far : List Nat)
    (children : List (String × List LineageTree)) (p : Nat × String) :
    Except LinErr (List (String × List LineageTree)) := do
  let subtree ← extractAux self direction fuel p.1 so_far
  match alookup children p.2 with
  | some kids => pure (ainsert children p.2 (kids ++ [subtree]))
  | none => pure (children ++ [(p.2, [subtree])])

/-- `LineageRelations.extract_tree`: extract a `LineageTree` rooted at `root`
in `direction`, failing on a cycle along the current path (`so_far`; the
public entry point passes `[]`). -/
def extract_tree (self : LineageRelations) (root : Nat)
    (direction : LineageDirection) (so_far : List Nat) :
    Except LinErr LineageTree :=
  extractAux self direction (self.by_source.length + self.by_derived.length + 2)
    root so_far

/-- `LineageRelations.merge_new_home`. -/
def merge_new_home (self : LineageRelations) (id_ : Nat) (home : Option String) :
    Except LinErr LineageRelations :=
  match alookup self._homes id_ with
  | some existing =>
      if truthyStr existing ∧ existing ≠ home then
        throw (.inconsistentHomes id_)
      else .ok self
  | none => .ok { self with _homes := ainsert self._homes id_ home }

/-- `LineageRelations.merge_new_lineage_relation`. -/
def merge_new_lineage_relation (self : LineageRelations) (rel : LineageRelation) :
    Except LinErr LineageRelations :=
  let ids := (rel.source_id, rel.derived_id)
  match alookup self._relations_idx ids with
  | some classifier =>
      if classifier ≠ rel.classifier then
        throw (.inconsistentClassifiers ids.1 ids.2)
      else .ok self
  | none =>
      let self' : LineageRelations :=
        { self with
          _relations_idx := ainsert self._relations_idx ids rel.classifier
          relations := self.relations ++ [rel]
          by_source := ainsert self.by_source rel.source_id
            (ainsert ((alookup self.by_source rel.source_id).getD [])
              rel.derived_id rel.classifier)
          by_derived := ainsert self.by_derived rel.derived_id
            (ainsert ((alookup self.by_derived rel.derived_id).getD [])
              rel.source_id rel.classifier) }
      do
        -- Check for cyclic dependencies (only when one of the two ids was
        -- already known: `if new_ids & self.dataset_ids`).
        if rel.source_id ∈ self.dataset_ids ∨ rel.derived_id ∈ self.dataset_ids then
          let _ ← extract_tree self' rel.derived_id LineageDirection.SOURCES []
          let _ ← extract_tree self' rel.source_id LineageDirection.DERIVED []
        .ok { self' with
              dataset_ids := sinsert (sinsert self'.dataset_ids rel.source_id)
                rel.derived_id }

/-- `LineageRelations._merge_new_relation` (convenience wrapper). -/
def _merge_new_relation (self : LineageRelations) (ids : Nat × Nat)
    (classifier : String) : Except LinErr LineageRelations :=
  merge_new_lineage_relation self ⟨classifier, ids.1, ids.2⟩

/-- `LineageRelations._merge_new_node`: duplicate detailed-subtree guard. -/
def _merge_new_node (self : LineageRelations) (ids : Nat × Nat)
    (node : LineageTree) : Except LinErr LineageRelations :=
  if truthyChildren node.children then
    match alookup self._trees_idx ids with
    | some _ => throw .duplicateSubtrees
    | none => .ok { self with _trees_idx := ainsert self._trees_idx ids node }
  else .ok self

/-- `LineageRelations.merge`: replay another collection's homes, relations and
guard subtrees through the single-item merge primitives. -/
def merge (self pool : LineageRelations) : Except LinErr LineageRelations := do
  let self ← pool._homes.foldlM (fun s p => merge_new_home s p.1 p.2) self
  let self ← pool._relations_idx.foldlM (fun s p => _merge_new_relation s p.1 p.2) self
  let self ← pool._trees_idx.foldlM (fun s p => _merge_new_node s p.1 p.2) self
  .ok self

/-- `sizeOf` of the payload of `some children` is below `sizeOf` of the tree
(used for the termination of `merge_tree`). -/
theorem sizeOf_children_lt (t : LineageTree)
    (items : List (String × List LineageTree)) (h : t.children = some items) :
    sizeOf items < sizeOf t := by
  cases t with
  | mk d i c hm =>
      cases c with
      | none => simp [LineageTree.children] at h
      | some items' =>
          simp only [LineageTree.children, Option.some.injEq] at h
          subst h
          simp only [LineageTree.mk.sizeOf_spec, Option.some.sizeOf_spec]
          omega

/- `LineageRelations.merge_tree` (with its two inner loops, over
`tree.children.items()` and over each child list, as the `_items` and `_kids`
functions): merge a `LineageTree` level by level, checking consistency. -/
mutual

def merge_tree (self : LineageRelations) (tree : LineageTree)
    (parent_node : Option LineageTree) (max_depth : Int) :
    Except LinErr LineageRelations := do
  -- Check new tree is acyclic within itself
  let _ ← tree.child_datasets
  let self ← merge_new_home self tree.dataset_id tree.home
  -- Determine recursion behaviour
  let rn : Bool × Int :=
    if parent_node.isNone then (true, max_depth)
    else if max_depth = 0 then (true, 0)
    else if max_depth = 1 then (false, max_depth - 1)
    else (true, max_depth - 1)
  let self ←
    if !truthyChildren tree.children then do
      -- leaf of the input tree: force a reverse-direction cycle check
      let _ ← extract_tree self tree.dataset_id tree.direction.opposite []
      pure self
    else pure self
  match h : tree.children with
  | none => .ok self
  | some items => merge_tree_items self tree rn.1 rn.2 items
termination_by sizeOf tree
decreasing_by
  simp_wf
  exact sizeOf_children_lt tree items h

def merge_tree_items (self : LineageRelations) (tree : LineageTree)
    (recurse : Bool) (next_max_depth : Int) :
    List (String × List LineageTree) → Except LinErr LineageRelations
  | [] => .ok self
  | (classifier, kids) :: rest => do
      let self ← merge_tree_kids self tree recurse next_max_depth classifier kids
      merge_tree_items self tree recurse next_max_depth rest
termination_by l => sizeOf l
decreasing_by
  all_goals simp_wf
  all_goals omega

def merge_tree_kids (self : LineageRelations) (tree : LineageTree)
    (recurse : Bool) (next_max_depth : Int) (classifier : String) :
    List LineageTree → Except LinErr LineageRelations
  | [] => .ok self
  | child :: rest => do
      if child.direction ≠ tree.direction then throw .mixedDirections
      let ids :=
        match tree.direction with
        | .SOURCES => (tree.dataset_id, child.dataset_id)
        | .DERIVED => (child.dataset_id, tree.dataset_id)
      let self ← _merge_new_relation self ids classifier
      let self ← _merge_new_node self ids child
      let self ←
        if recurse then merge_tree self child (some tree) next_max_depth
        else pure self
      merge_tree_kids self tree recurse next_max_depth classifier rest
termination_by l => sizeOf l
decreasing_by
  all_goals simp_wf
  all_goals omega

end

/-- The `LineageRelations` constructor with its optional `tree`, `max_depth`
and `clone` arguments (`rels = LineageRelations(); rels.merge(clone);
rels.merge_tree(tree, max_depth)`). -/
def lineage_relations_new (tree : Option LineageTree) (max_depth : Int)
    (clone : Option LineageRelations) : Except LinErr LineageRelations := do
  let self := emptyRelations
  let self ←
    match clone with
    | some c => merge self c
    | none => pure self
  match tree with
  | some t => merge_tree self t none max_depth
  | none => pure self

/-- `LineageRelations.relations_diff`.  Faithful to the source, including its
iteration defect: both branches run `for id_, home in self._homes:` (iterating
the dict's keys, so unpacking a UUID raises `TypeError`) and
`for ids, classifier in self._relations_idx:` followed by
`relations_to_add[ids] = classifier` where `relations_to_add` is a list (a
`TypeError` on the first relation).  The early `if not existing_relations:`
test is falsy only for `None` (a `LineageRelations` instance is always
truthy). -/
def relations_diff (self : LineageRelations)
    (existing_relations : Option LineageRelations) (allow_updates : Bool) :
    Except LinErr (List LineageRelation × List LineageRelation ×
      List (Nat × Option String) × List (Nat × Option String)) :=
  match existing_relations with
  | none => .ok (self.relations, [], self._homes, [])
  | some existing => do
      if !allow_updates then
        -- Ensure no inconsistencies
        let merged ← lineage_relations_new none 0 (some self)
        let _ ← merge merged existing
        -- `for id_, home in self._homes:` unpacks a UUID key: TypeError.
        if self._homes ≠ [] then throw .pyTypeError
        -- `for ids, classifier in self._relations_idx:` unpacks the pair key,
        -- the membership test against tuple keys is False, and
        -- `relations_to_add[ids] = classifier` indexes a list with a UUID:
        -- TypeError.
        if self._relations_idx ≠ [] then throw .pyTypeError
        .ok ([], [], [], [])
      else
        if self._homes ≠ [] then throw .pyTypeError
        if self._relations_idx ≠ [] then throw .pyTypeError
        .ok ([], [], [], [])

/-- Run an operation known to succeed (used to build concrete collections for
the theorems; falls back to the empty collection on error). -/
def mustOk (x : Except LinErr LineageRelations) : LineageRelations :=
  match x with
  | .ok s => s
  | .error _ => emptyRelations

/-- Merge a list of relations one by one (a caller loop over
`merge_new_lineage_relation`). -/
def mergeRelationList (self : LineageRelations) (rels : List LineageRelation) :
    Except LinErr LineageRelations :=
  rels.foldlM merge_new_lineage_relation self

/-- One `source → derived` hop in the recorded edge set. -/
def EdgeStep (s : LineageRelations) (a b : Nat) : Prop :=
  (alookup s._relations_idx (a, b)).isSome = true

/-- The ids adjacent to `a` in the index that `extract_tree` traverses for
`dir` (`by_source` for SOURCES, `by_derived` for DERIVED). -/
def neighbors (s : LineageRelations) (dir : LineageDirection) (a : Nat) :
    List Nat :=
  (match dir with
   | .SOURCES => (alookup s.by_source a).getD []
   | .DERIVED => (alookup s.by_derived a).getD []).map Prod.fst

/-- One traversal step of `extract_tree` in direction `dir`. -/
def AdjStep (s : LineageRelations) (dir : LineageDirection) (a b : Nat) : Prop :=
  b ∈ neighbors s dir a

/-- Some id repeats along a single root-to-descendant traversal path. -/
def HasRepeatedPath (s : LineageRelations) (dir : LineageDirection)
    (root : Nat) : Prop :=
  ∃ p : List Nat, List.Chain (AdjStep s dir) root p ∧ ¬ (root :: p).Nodup

/- `childrenPopulated t`: every node of `t` has `children` of the form
`some _` (a map, never `None`). -/
mutual

def childrenPopulated : LineageTree → Bool
  | .mk _ _ none _ => false
  | .mk _ _ (some items) _ => childrenPopulatedItems items

def childrenPopulatedItems : List (String × List LineageTree) → Bool
  | [] => true
  | (_, kids) :: rest => childrenPopulatedKids kids && childrenPopulatedItems rest

def childrenPopulatedKids : List LineageTree → Bool
  | [] => true
  | t :: rest => childrenPopulated t && childrenPopulatedKids rest

end

/- Concrete inputs used by the claim theorems. -/

/-- The spec's scenario tree: root `U1 = 1` (SOURCES) with children
`{"nbar": [U2 = 2]}`, `U2` a leaf (`children = {}`), no homes set. -/
def treeC2 : LineageTree :=
  .mk .SOURCES 1 (some [("nbar", [.mk .SOURCES 2 (some []) none])]) none

/-- The collection produced by merging `treeC2` into an empty collection. -/
def sC2 : LineageRelations :=
  ⟨[(1, none), (2, none)], [((1, 2), "nbar")], [], [⟨"nbar", 1, 2⟩],
   [(1, [(2, "nbar")])], [(2, [(1, "nbar")])], [1, 2]⟩

/-- The scenario tree again, this time carrying a non-null home `"h"` at the
root (used to show a later home is silently discarded). -/
def treeC10 : LineageTree :=
  .mk .SOURCES 1 (some [("nbar", [.mk .SOURCES 2 (some []) none])]) (some "h")

/-- The collection after merging a single relation `(c, a, b)` into an empty
collection. -/
def singleRel (a b : Nat) (c : String) : LineageRelations :=
  mustOk (merge_new_lineage_relation emptyRelations ⟨c, a, b⟩)

/-- An acyclic diamond with a tail:
`10 → 11 → 13`, `10 → 12 → 13`, `13 → 14 → 15` (edges as the
`(source_id, derived_id)` keys the code stores). -/
def relsC3 : List LineageRelation :=
  [⟨"c", 10, 11⟩, ⟨"c", 10, 12⟩, ⟨"c", 11, 13⟩, ⟨"c", 12, 13⟩,
   ⟨"c", 13, 14⟩, ⟨"c", 14, 15⟩]

/-- The collection holding the diamond-with-tail `relsC3`. -/
def sC3 : LineageRelations := mustOk (mergeRelationList emptyRelations relsC3)

/-- A rank function witnessing that `sC3`'s edges are acyclic (each edge
strictly increases the rank). -/
def rankC3 (n : Nat) : Nat :=
  if n = 10 then 0
  else if n = 11 then 1
  else if n = 12 then 1
  else if n = 13 then 2
  else if n = 14 then 3
  else 4

/-- Node `15` of the extraction of `sC3` from root `10` (a leaf). -/
def tC3n15 : LineageTree := .mk .SOURCES 15 (some []) none

/-- Node `14` of the extraction of `sC3` from root `10`. -/
def tC3n14 : LineageTree := .mk .SOURCES 14 (some [("c", [tC3n15])]) none

/-- Node `13` (the diamond node) of the extraction of `sC3` from root `10`. -/
def tC3n13 : LineageTree := .mk .SOURCES 13 (some [("c", [tC3n14])]) none

/-- Node `11` of the extraction of `sC3` from root `10`. -/
def tC3n11 : LineageTree := .mk .SOURCES 11 (some [("c", [tC3n13])]) none

/-- Node `12` of the extraction of `sC3` from root `10` (carries its own full
copy of the diamond node `13` and its tail). -/
def tC3n12 : LineageTree := .mk .SOURCES 12 (some [("c", [tC3n13])]) none

/-- The tree extracted from `sC3` at root `10` (direction SOURCES): the
diamond node `13` and its whole tail appear once under `11` and once under
`12`. -/
def tC3 : LineageTree :=
  .mk .SOURCES 10 (some [("c", [tC3n11, tC3n12])]) none

/-- Leaf `22` of the three-level chain tree. -/
def treeC4n22 : LineageTree := .mk .SOURCES 22 (some []) none

/-- Middle node `21` of the three-level chain tree (carries a child, so it is
registered in the duplicate-subtree guard when merged). -/
def treeC4n21 : LineageTree := .mk .SOURCES 21 (some [("c", [treeC4n22])]) none

/-- A three-level chain tree `20 → 21 → 22` (each node one child, leaf at the
bottom). -/
def treeC4 : LineageTree := .mk .SOURCES 20 (some [("c", [treeC4n21])]) none

/-- The collection produced by merging `treeC4` with `max_depth = 1`: both
levels of edges are merged (`(20,21)` and `(21,22)`), homes only for `20` and
`21`. -/
def sC8 : LineageRelations :=
  ⟨[(20, none), (21, none)], [((20, 21), "c"), ((21, 22), "c")],
   [((20, 21), treeC4n21)],
   [⟨"c", 20, 21⟩, ⟨"c", 21, 22⟩],
   [(20, [(21, "c")]), (21, [(22, "c")])],
   [(21, [(20, "c")]), (22, [(21, "c")])],
   [20, 21, 22]⟩

/-- The leaf (level four) of the four-level chain tree. -/
def chain4leaf (d : Nat) : LineageTree := .mk .SOURCES d (some []) none

/-- Level three of the four-level chain tree. -/
def chain4third (c d : Nat) : LineageTree :=
  .mk .SOURCES c (some [("r", [chain4leaf d])]) none

/-- Level two of the four-level chain tree. -/
def chain4second (b c d : Nat) : LineageTree :=
  .mk .SOURCES b (some [("r", [chain4third c d])]) none

/-- A four-level chain tree `a → b → c → d` with classifier `"r"`. -/
def chain4 (a b c d : Nat) : LineageTree :=
  .mk .SOURCES a (some [("r", [chain4second b c d])]) none

/-- The two relations of a three-node chain `a → b → c` (classifier `"r"`). -/
def chain3rels (a b c : Nat) : List LineageRelation :=
  [⟨"r", a, b⟩, ⟨"r", b, c⟩]

/-- The collection holding the three-node chain `a → b → c`. -/
def sChain3 (a b c : Nat) : LineageRelations :=
  mustOk (mergeRelationList emptyRelations (chain3rels a b c))

/-- The subtree at `b` of the tree extracted from `sChain3 a b c` at root `a`. -/
def tChain3sub (b c : Nat) : LineageTree :=
  .mk .SOURCES b (some [("r", [.mk .SOURCES c (some []) none])]) none

/-- The tree extracted from `sChain3 a b c` at root `a` (direction SOURCES). -/
def tChain3 (a b c : Nat) : LineageTree :=
  .mk .SOURCES a (some [("r", [tChain3sub b c])]) none

/-! ## Basic lemmas about the `Except` monad and the association-list model -/

@[simp] theorem ok_bind {α β : Type} (a : α) (f : α → Except LinErr β) :
    (Except.ok a >>= f) = f a := rfl

@[simp] theorem error_bind {α β : Type} (e : LinErr) (f : α → Except LinErr β) :
    ((Except.error e : Except LinErr α) >>= f) = .error e := rfl

@[simp] theorem throw_eq {α : Type} (e : LinErr) :
    (throw e : Except LinErr α) = .error e := rfl

@[simp] theorem pure_eq {α : Type} (a : α) :
    (pure a : Except LinErr α) = .ok a := rfl

theorem alookup_ainsert_self {K V : Type} [DecidableEq K]
    (l : List (K × V)) (k : K) (v : V) : alookup (ainsert l k v) k = some v := by
  induction l with
  | nil => simp [ainsert, alookup]
  | cons p rest ih =>
      by_cases h : p.1 = k
      · simp [ainsert, alookup, h]
      · simp [ainsert, alookup, h, ih]

theorem alookup_ainsert_ne {K V : Type} [DecidableEq K]
    (l : List (K × V)) (k : K) (v : V) (k' : K) (h : k ≠ k') :
    alookup (ainsert l k v) k' = alookup l k' := by
  induction l with
  | nil => simp [ainsert, alookup, h]
  | cons p rest ih =>
      by_cases hp : p.1 = k
      · simp [ainsert, alookup, hp, h]
      · simp [ainsert, alookup, hp, ih]

theorem alookup_isSome_iff_mem_keys {K V : Type} [DecidableEq K]
    (l : List (K × V)) (k : K) :
    (alookup l k).isSome = true ↔ k ∈ l.map Prod.fst := by
  induction l with
  | nil => simp [alookup]
  | cons p rest ih =>
      by_cases h : p.1 = k
      · simp [alookup, h]
      · simp [alookup, h, ih, Ne.symm h]

theorem alookup_some_mem {K V : Type} [DecidableEq K]
    {l : List (K × V)} {k : K} {v : V} (h : alookup l k = some v) : (k, v) ∈ l := by
  induction l with
  | nil => simp [alookup] at h
  | cons p rest ih =>
      by_cases hp : p.1 = k
      · simp [alookup, hp] at h
        cases p with
        | mk k0 v0 =>
            simp only at hp h
            subst hp
            subst h
            exact List.mem_cons_self _ _
      · simp [alookup, hp] at h
        exact List.mem_cons_of_mem _ (ih h)

/-! ## Claim theorems -/

/-- C1: the acyclicity invariant is violated by the code: merging the one-hop
relation with `source_id = derived_id = 0` (classifier `"x"`) into an empty
collection succeeds — the `new_ids & self.dataset_ids` guard skips the cycle
check because neither id was known — and the resulting edge set makes `0`
reachable from itself via one `source → derived` hop. -/
theorem C1_self_loop_merges_into_empty_collection :
    merge_new_lineage_relation emptyRelations ⟨"x", 0, 0⟩ = .ok (singleRel 0 0 "x") ∧
      Relation.TransGen (EdgeStep (singleRel 0 0 "x")) 0 0 :=
  ⟨rfl, Relation.TransGen.single rfl⟩

/-- C2: merging the scenario tree (root `U1 = 1`, SOURCES, children
`{"nbar": [U2 = 2]}`, `U2` a leaf) into an empty collection yields exactly one
relation, but with `source_id = U1` and `derived_id = U2` — the opposite of
the claimed `(source_id = U2, derived_id = U1)` — and a homes mapping holding
explicit null entries for both ids rather than the claimed empty mapping. -/
theorem C2_scenario_merge_swaps_source_and_derived :
    merge_tree emptyRelations treeC2 none 0 = .ok sC2 ∧
    sC2.relations = [⟨"nbar", 1, 2⟩] ∧
    sC2._homes = [(1, none), (2, none)] ∧
    sC2.relations ≠ [⟨"nbar", 2, 1⟩] ∧
    sC2._homes ≠ [] := by
  refine ⟨?_, rfl, rfl, by decide, by decide⟩
  simp [merge_tree, merge_tree_items, merge_tree_kids, treeC2, sC2,
    LineageTree.child_datasets, LineageTree.child_datasets_items,
    LineageTree.child_datasets_kids, merge_new_home, _merge_new_relation,
    merge_new_lineage_relation, _merge_new_node, extract_tree, extractAux,
    alookup, ainsert, sinsert, truthyStr, truthyChildren, emptyRelations,
    LineageTree.direction, LineageTree.dataset_id, LineageTree.children,
    LineageTree.home, LineageDirection.opposite]

/-- C5: classifier determinism.  For any ids `a`, `b` and classifiers
`x ≠ y`: merging `(a, b, x)` into an empty collection succeeds; then merging
`(a, b, y)` raises the inconsistent-lineage exception (inconsistent
classifiers), while merging `(a, b, x)` again succeeds, leaves the collection
unchanged, and the collection holds exactly one relation for the pair
`(a, b)`. -/
theorem C5_classifier_determinism (a b : Nat) (x y : String) (hxy : y ≠ x) :
    merge_new_lineage_relation emptyRelations ⟨x, a, b⟩ = .ok (singleRel a b x) ∧
    merge_new_lineage_relation (singleRel a b x) ⟨y, a, b⟩ =
      .error (.inconsistentClassifiers a b) ∧
    merge_new_lineage_relation (singleRel a b x) ⟨x, a, b⟩ = .ok (singleRel a b x) ∧
    (singleRel a b x).relations = [⟨x, a, b⟩] ∧
    alookup (singleRel a b x)._relations_idx (a, b) = some x := by
  refine ⟨rfl, ?_, ?_, ?_, ?_⟩
  · simp [singleRel, mustOk, merge_new_lineage_relation, emptyRelations,
      alookup, ainsert, Ne.symm hxy]
  · simp [singleRel, mustOk, merge_new_lineage_relation, emptyRelations,
      alookup, ainsert]
  · simp [singleRel, mustOk, merge_new_lineage_relation, emptyRelations,
      alookup, ainsert]
  · simp [singleRel, mustOk, merge_new_lineage_relation, emptyRelations,
      alookup, ainsert]

/-- C5 witness: the theorem instantiated at `a = 0`, `b = 1`, `x = "x"`,
`y = "y"`. -/
theorem C5_classifier_determinism_witness :
    merge_new_lineage_relation emptyRelations ⟨"x", 0, 1⟩ = .ok (singleRel 0 1 "x") ∧
    merge_new_lineage_relation (singleRel 0 1 "x") ⟨"y", 0, 1⟩ =
      .error (.inconsistentClassifiers 0 1) ∧
    merge_new_lineage_relation (singleRel 0 1 "x") ⟨"x", 0, 1⟩ = .ok (singleRel 0 1 "x") ∧
    (singleRel 0 1 "x").relations = [⟨"x", 0, 1⟩] ∧
    alookup (singleRel 0 1 "x")._relations_idx (0, 1) = some "x" :=
  C5_classifier_determinism 0 1 "x" "y" (by decide)

/-- C6: diffing a collection holding `(0, 1, "x")` against an existing
collection holding `(0, 1, "y")` with `allow_updates = False` fails with the
inconsistent-classifiers exception (via the hypothetical merge), as the claim
says; but with `allow_updates = True` the code raises a `TypeError` (it
iterates `self._relations_idx` without `.items()` and assigns into the
`relations_to_update` list by key) instead of returning the edge as
to-update. -/
theorem C6_diff_update_branch_raises_type_error :
    relations_diff (singleRel 0 1 "x") (some (singleRel 0 1 "y")) false
      = .error (.inconsistentClassifiers 0 1) ∧
    relations_diff (singleRel 0 1 "x") (some (singleRel 0 1 "y")) true
      = .error .pyTypeError :=
  ⟨rfl, rfl⟩

/-- C7: diffing against an absent (`None`) existing collection returns all of
the collection's relations and homes as to-add and nothing to update, for
every collection; but diffing the one-edge collection against a present,
empty existing collection raises a `TypeError` (the strict branch iterates
`self._relations_idx` without `.items()` and assigns into the
`relations_to_add` list by key) instead of returning the edge as to-add. -/
theorem C7_diff_against_nothing :
    (∀ (self : LineageRelations) (u : Bool),
        relations_diff self none u = .ok (self.relations, [], self._homes, [])) ∧
    relations_diff (singleRel 0 1 "x") (some emptyRelations) false
      = .error .pyTypeError :=
  ⟨fun _ _ => rfl, rfl⟩

/-- C10: `merge_tree` records a homes entry for every node it visits, even
when the tree carries no home (an explicit null entry), and once a null home
is recorded for an id a later merge supplying a different non-null home for
that id neither raises nor replaces the stored home: `merge_new_home` leaves
the collection entirely unchanged, and re-merging the scenario tree with home
`"h"` at the root returns the collection unchanged. -/
theorem C10_null_homes_recorded_and_sticky :
    (∀ (s : LineageRelations) (id_ : Nat) (home : Option String),
        alookup s._homes id_ = some none → merge_new_home s id_ home = .ok s) ∧
    (merge_tree emptyRelations treeC2 none 0 = .ok sC2 ∧
     alookup sC2._homes 1 = some none ∧
     alookup sC2._homes 2 = some none ∧
     merge_tree sC2 treeC10 none 0 = .ok sC2) := by
  constructor
  · intro s id_ home hl
    simp [merge_new_home, hl, truthyStr]
  · refine ⟨?_, rfl, rfl, ?_⟩
    · simp [merge_tree, merge_tree_items, merge_tree_kids, treeC2, sC2,
        LineageTree.child_datasets, LineageTree.child_datasets_items,
        LineageTree.child_datasets_kids, merge_new_home, _merge_new_relation,
        merge_new_lineage_relation, _merge_new_node, extract_tree, extractAux,
        alookup, ainsert, sinsert, truthyStr, truthyChildren, emptyRelations,
        LineageTree.direction, LineageTree.dataset_id, LineageTree.children,
        LineageTree.home, LineageDirection.opposite]
    · simp [merge_tree, merge_tree_items, merge_tree_kids, treeC10, sC2,
        LineageTree.child_datasets, LineageTree.child_datasets_items,
        LineageTree.child_datasets_kids, merge_new_home, _merge_new_relation,
        merge_new_lineage_relation, _merge_new_node, extract_tree, extractAux,
        alookup, ainsert, sinsert, truthyStr, truthyChildren, emptyRelations,
        LineageTree.direction, LineageTree.dataset_id, LineageTree.children,
        LineageTree.home, LineageDirection.opposite]

/-- C10 witness: the general part applied to a collection that recorded a
null home for id `5`, then offered home `"h"`. -/
theorem C10_null_homes_witness :
    merge_new_home (mustOk (merge_new_home emptyRelations 5 none)) 5 (some "h")
      = .ok (mustOk (merge_new_home emptyRelations 5 none)) :=
  C10_null_homes_recorded_and_sticky.1 _ 5 (some "h") rfl

/-- A rank function that strictly increases along every recorded edge rules
out any directed cycle (`Relation.TransGen` of `EdgeStep`). -/
theorem no_cycle_of_rank (s : LineageRelations) (f : Nat → Nat)
    (hf : ∀ a b, EdgeStep s a b → f a < f b) (id_ : Nat) :
    ¬ Relation.TransGen (EdgeStep s) id_ id_ := by
  intro h
  have key : ∀ a b, Relation.TransGen (EdgeStep s) a b → f a < f b := by
    intro a b hab
    induction hab with
    | single h1 => exact hf _ _ h1
    | tail _ h2 ih => exact lt_trans ih (hf _ _ h2)
  exact lt_irrefl _ (key _ _ h)

set_option maxHeartbeats 2000000 in
/-- C3 counterexample: the diamond-with-tail collection `sC3` is acyclic and
`10` is a known root, yet `extract_tree(10, SOURCES)` followed by
`merge_tree` into an empty collection does not reproduce the reachable edges:
the extraction duplicates the subtree below the shared node `13`, and
re-merging raises the duplicate-subtrees exception. -/
theorem C3_round_trip_counterexample :
    mergeRelationList emptyRelations relsC3 = .ok sC3 ∧
    (∀ id_ : Nat, ¬ Relation.TransGen (EdgeStep sC3) id_ id_) ∧
    extract_tree sC3 10 .SOURCES [] = .ok tC3 ∧
    merge_tree emptyRelations tC3 none 0 = .error .duplicateSubtrees := by
  refine ⟨rfl, ?_, rfl, ?_⟩
  · refine no_cycle_of_rank sC3 rankC3 ?_
    intro a b h
    rw [EdgeStep, alookup_isSome_iff_mem_keys] at h
    have hidx : sC3._relations_idx =
        [((10, 11), "c"), ((10, 12), "c"), ((11, 13), "c"), ((12, 13), "c"),
         ((13, 14), "c"), ((14, 15), "c")] := rfl
    rw [hidx] at h
    simp only [List.map_cons, List.map_nil, List.mem_cons, List.not_mem_nil,
      or_false, Prod.mk.injEq] at h
    rcases h with ⟨rfl, rfl⟩ | ⟨rfl, rfl⟩ | ⟨rfl, rfl⟩ | ⟨rfl, rfl⟩ |
      ⟨rfl, rfl⟩ | ⟨rfl, rfl⟩ <;> decide
  · simp [merge_tree, merge_tree_items, merge_tree_kids, tC3, tC3n11, tC3n12,
      tC3n13, tC3n14, tC3n15, sC3, relsC3, mergeRelationList, mustOk,
      LineageTree.child_datasets, LineageTree.child_datasets_items,
      LineageTree.child_datasets_kids, merge_new_home, _merge_new_relation,
      merge_new_lineage_relation, _merge_new_node, extract_tree, extractAux,
      alookup, ainsert, sinsert, truthyStr, truthyChildren, emptyRelations,
      LineageTree.direction, LineageTree.dataset_id, LineageTree.children,
      LineageTree.home, LineageDirection.opposite]

/-- C4 counterexample: merging the three-level chain tree `20 → 21 → 22`
into an empty collection succeeds, but merging the same tree a second time
raises the duplicate-subtrees exception (node `21` carries grandchildren and
its edge is already registered in the guard), so merging twice is not
idempotent. -/
theorem C4_merge_twice_counterexample :
    ∃ s, merge_tree emptyRelations treeC4 none 0 = .ok s ∧
      merge_tree s treeC4 none 0 = .error .duplicateSubtrees := by
  refine ⟨mustOk (merge_tree emptyRelations treeC4 none 0), ?_, ?_⟩ <;>
    simp [merge_tree, merge_tree_items, merge_tree_kids, treeC4, treeC4n21,
      treeC4n22, mustOk,
      LineageTree.child_datasets, LineageTree.child_datasets_items,
      LineageTree.child_datasets_kids, merge_new_home, _merge_new_relation,
      merge_new_lineage_relation, _merge_new_node, extract_tree, extractAux,
      alookup, ainsert, sinsert, truthyStr, truthyChildren, emptyRelations,
      LineageTree.direction, LineageTree.dataset_id, LineageTree.children,
      LineageTree.home, LineageDirection.opposite]

/-- C8 counterexample: merging the three-level chain with `max_depth = 1`
does not stop at the immediate children's edges: the edge `(21, 22)` below
the immediate child `21` is merged as well (the depth bound only suppresses
the recursion below the children, not the children's own edge loop). -/
theorem C8_depth_one_counterexample :
    merge_tree emptyRelations treeC4 none 1 = .ok sC8 ∧
    sC8.relations = [⟨"c", 20, 21⟩, ⟨"c", 21, 22⟩] ∧
    sC8._homes = [(20, none), (21, none)] ∧
    LineageRelation.mk "c" 21 22 ∈ sC8.relations := by
  refine ⟨?_, rfl, rfl, by decide⟩
  simp [merge_tree, merge_tree_items, merge_tree_kids, treeC4, treeC4n21,
    treeC4n22, sC8,
    LineageTree.child_datasets, LineageTree.child_datasets_items,
    LineageTree.child_datasets_kids, merge_new_home, _merge_new_relation,
    merge_new_lineage_relation, _merge_new_node, extract_tree, extractAux,
    alookup, ainsert, sinsert, truthyStr, truthyChildren, emptyRelations,
    LineageTree.direction, LineageTree.dataset_id, LineageTree.children,
    LineageTree.home, LineageDirection.opposite]

/-! ## Absorption lemmas: a successfully merged item merges again as a no-op -/


/- length of ainsert at a fresh key -/
theorem ainsert_length_of_lookup_none {K V : Type} [DecidableEq K]
    {l : List (K × V)} {k : K} (v : V) (h : alookup l k = none) :
    (ainsert l k v).length = l.length + 1 := by
  induction l with
  | nil => simp [ainsert]
  | cons p rest ih =>
      by_cases hp : p.1 = k
      · simp [alookup, hp] at h
      · simp [alookup, hp] at h
        simp [ainsert, hp, ih h]

/- merge_new_home: behaviour depends only on the lookup; full case lemmas -/
theorem merge_new_home_of_lookup_some {s : LineageRelations} {i : Nat}
    {v : Option String} (hl : alookup s._homes i = some v) (hm : Option String) :
    merge_new_home s i hm =
      (if truthyStr v ∧ v ≠ hm then .error (.inconsistentHomes i) else .ok s) := by
  simp [merge_new_home, hl]

theorem merge_new_home_of_lookup_none {s : LineageRelations} {i : Nat}
    (hl : alookup s._homes i = none) (hm : Option String) :
    merge_new_home s i hm = .ok { s with _homes := ainsert s._homes i hm } := by
  simp [merge_new_home, hl]

theorem merge_new_home_ok_absorbed {s s' : LineageRelations} {i : Nat}
    {hm : Option String} (h : merge_new_home s i hm = .ok s') :
    merge_new_home s' i hm = .ok s' := by
  cases hl : alookup s._homes i with
  | some v =>
      rw [merge_new_home_of_lookup_some hl] at h
      by_cases hc : truthyStr v ∧ v ≠ hm
      · simp [hc] at h
      · simp [hc] at h
        subst h
        rw [merge_new_home_of_lookup_some hl]
        simp [hc]
  | none =>
      rw [merge_new_home_of_lookup_none hl] at h
      cases h
      rw [merge_new_home_of_lookup_some (show alookup _ i = some hm from alookup_ainsert_self _ _ _)]
      simp

theorem merge_new_home_absorbed_isSome {s : LineageRelations} {i : Nat}
    {hm : Option String} (h : merge_new_home s i hm = .ok s) :
    (alookup s._homes i).isSome = true := by
  cases hl : alookup s._homes i with
  | some v => rfl
  | none =>
      rw [merge_new_home_of_lookup_none hl] at h
      have h2 : ({ s with _homes := ainsert s._homes i hm } : LineageRelations) = s :=
        Except.ok.inj h
      have h3 : ainsert s._homes i hm = s._homes := congrArg LineageRelations._homes h2
      have hlen := ainsert_length_of_lookup_none hm hl
      rw [h3] at hlen
      omega

theorem merge_new_home_absorbed_of_lookup_eq {s1 s2 : LineageRelations}
    {i : Nat} {hm : Option String}
    (habs : merge_new_home s1 i hm = .ok s1)
    (heq : alookup s2._homes i = alookup s1._homes i) :
    merge_new_home s2 i hm = .ok s2 := by
  cases hl : alookup s1._homes i with
  | some v =>
      rw [merge_new_home_of_lookup_some hl] at habs
      rw [merge_new_home_of_lookup_some (heq.trans hl)]
      by_cases hc : truthyStr v ∧ v ≠ hm
      · simp [hc] at habs
      · simp [hc]
  | none =>
      have := merge_new_home_absorbed_isSome habs
      rw [hl] at this
      simp at this

theorem merge_new_home_lookup_mono {s s' : LineageRelations} {i : Nat}
    {hm : Option String} (h : merge_new_home s i hm = .ok s') (j : Nat)
    (hj : (alookup s._homes j).isSome = true) :
    alookup s'._homes j = alookup s._homes j := by
  cases hl : alookup s._homes i with
  | some v =>
      rw [merge_new_home_of_lookup_some hl] at h
      by_cases hc : truthyStr v ∧ v ≠ hm
      · simp [hc] at h
      · simp [hc] at h
        subst h
        rfl
  | none =>
      rw [merge_new_home_of_lookup_none hl] at h
      cases h
      have hji : i ≠ j := by
        intro e
        subst e
        rw [hl] at hj
        simp at hj
      exact alookup_ainsert_ne _ _ _ _ hji

theorem merge_new_home_preserves_idx {s s' : LineageRelations} {i : Nat}
    {hm : Option String} (h : merge_new_home s i hm = .ok s') :
    s'._relations_idx = s._relations_idx ∧ s'._trees_idx = s._trees_idx := by
  cases hl : alookup s._homes i with
  | some v =>
      rw [merge_new_home_of_lookup_some hl] at h
      by_cases hc : truthyStr v ∧ v ≠ hm
      · simp [hc] at h
      · simp [hc] at h
        subst h
        exact ⟨rfl, rfl⟩
  | none =>
      rw [merge_new_home_of_lookup_none hl] at h
      cases h
      exact ⟨rfl, rfl⟩

/- merge_new_lineage_relation: case lemmas -/
theorem mnlr_of_lookup_some {s : LineageRelations} {rel : LineageRelation}
    {cl : String}
    (hl : alookup s._relations_idx (rel.source_id, rel.derived_id) = some cl) :
    merge_new_lineage_relation s rel =
      (if cl ≠ rel.classifier then
        .error (.inconsistentClassifiers rel.source_id rel.derived_id)
       else .ok s) := by
  simp [merge_new_lineage_relation, hl]

theorem mnlr_of_lookup_none_ok {s s' : LineageRelations} {rel : LineageRelation}
    (hl : alookup s._relations_idx (rel.source_id, rel.derived_id) = none)
    (h : merge_new_lineage_relation s rel = .ok s') :
    s'._relations_idx =
      ainsert s._relations_idx (rel.source_id, rel.derived_id) rel.classifier ∧
    s'.relations = s.relations ++ [rel] ∧
    s'._homes = s._homes ∧
    s'._trees_idx = s._trees_idx := by
  rw [merge_new_lineage_relation] at h
  simp only [hl] at h
  by_cases hc : rel.source_id ∈ s.dataset_ids ∨ rel.derived_id ∈ s.dataset_ids
  · simp only [if_pos hc] at h
    cases he1 : extract_tree
        { s with
          _relations_idx := ainsert s._relations_idx
            (rel.source_id, rel.derived_id) rel.classifier
          relations := s.relations ++ [rel]
          by_source := ainsert s.by_source rel.source_id
            (ainsert ((alookup s.by_source rel.source_id).getD [])
              rel.derived_id rel.classifier)
          by_derived := ainsert s.by_derived rel.derived_id
            (ainsert ((alookup s.by_derived rel.derived_id).getD [])
              rel.source_id rel.classifier) }
        rel.derived_id LineageDirection.SOURCES [] with
    | error e => rw [he1] at h; simp at h
    | ok t1 =>
        rw [he1] at h
        simp only [ok_bind] at h
        cases he2 : extract_tree
            { s with
              _relations_idx := ainsert s._relations_idx
                (rel.source_id, rel.derived_id) rel.classifier
              relations := s.relations ++ [rel]
              by_source := ainsert s.by_source rel.source_id
                (ainsert ((alookup s.by_source rel.source_id).getD [])
                  rel.derived_id rel.classifier)
              by_derived := ainsert s.by_derived rel.derived_id
                (ainsert ((alookup s.by_derived rel.derived_id).getD [])
                  rel.source_id rel.classifier) }
            rel.source_id LineageDirection.DERIVED [] with
        | error e => rw [he2] at h; simp at h
        | ok t2 =>
            rw [he2] at h
            simp only [ok_bind] at h
            cases h
            exact ⟨rfl, rfl, rfl, rfl⟩
  · simp only [if_neg hc] at h
    cases h
    exact ⟨rfl, rfl, rfl, rfl⟩

theorem mnlr_absorbed_iff {s : LineageRelations} {rel : LineageRelation} :
    merge_new_lineage_relation s rel = .ok s ↔
      alookup s._relations_idx (rel.source_id, rel.derived_id) = some rel.classifier := by
  constructor
  · intro h
    cases hl : alookup s._relations_idx (rel.source_id, rel.derived_id) with
    | some cl =>
        rw [mnlr_of_lookup_some hl] at h
        by_cases hc : cl ≠ rel.classifier
        · simp [hc] at h
        · simp at hc
          rw [hc]
    | none =>
        have hrel := (mnlr_of_lookup_none_ok hl h).2.1
        have : s.relations.length = s.relations.length + 1 := by
          conv_lhs => rw [hrel]
          simp
        omega
  · intro hl
    rw [mnlr_of_lookup_some hl]
    simp

theorem mnlr_ok_lookup {s s' : LineageRelations} {rel : LineageRelation}
    (h : merge_new_lineage_relation s rel = .ok s') :
    alookup s'._relations_idx (rel.source_id, rel.derived_id) = some rel.classifier := by
  cases hl : alookup s._relations_idx (rel.source_id, rel.derived_id) with
  | some cl =>
      rw [mnlr_of_lookup_some hl] at h
      by_cases hc : cl ≠ rel.classifier
      · simp [hc] at h
      · simp [hc] at h
        subst h
        simp at hc
        rw [hc] at hl
        exact hl
  | none =>
      rw [(mnlr_of_lookup_none_ok hl h).1]
      exact alookup_ainsert_self _ _ _

theorem mnlr_idx_lookup_mono {s s' : LineageRelations} {rel : LineageRelation}
    (h : merge_new_lineage_relation s rel = .ok s') (k : Nat × Nat)
    (hk : (alookup s._relations_idx k).isSome = true) :
    alookup s'._relations_idx k = alookup s._relations_idx k := by
  cases hl : alookup s._relations_idx (rel.source_id, rel.derived_id) with
  | some cl =>
      rw [mnlr_of_lookup_some hl] at h
      by_cases hc : cl ≠ rel.classifier
      · simp [hc] at h
      · simp [hc] at h
        subst h
        rfl
  | none =>
      rw [(mnlr_of_lookup_none_ok hl h).1]
      have hk2 : (rel.source_id, rel.derived_id) ≠ k := by
        intro e
        rw [e] at hl
        rw [hl] at hk
        simp at hk
      exact alookup_ainsert_ne _ _ _ _ hk2

theorem mnlr_homes_eq {s s' : LineageRelations} {rel : LineageRelation}
    (h : merge_new_lineage_relation s rel = .ok s') : s'._homes = s._homes := by
  cases hl : alookup s._relations_idx (rel.source_id, rel.derived_id) with
  | some cl =>
      rw [mnlr_of_lookup_some hl] at h
      by_cases hc : cl ≠ rel.classifier
      · simp [hc] at h
      · simp [hc] at h
        subst h
        rfl
  | none => exact (mnlr_of_lookup_none_ok hl h).2.2.1

/- _merge_new_node: preserves homes and the relations index -/
theorem mnn_preserves {s s' : LineageRelations} {ids : Nat × Nat}
    {node : LineageTree} (h : _merge_new_node s ids node = .ok s') :
    s'._homes = s._homes ∧ s'._relations_idx = s._relations_idx := by
  rw [_merge_new_node] at h
  by_cases ht : truthyChildren node.children = true
  · rw [if_pos ht] at h
    cases hl : alookup s._trees_idx ids with
    | some t => rw [hl] at h; simp at h
    | none =>
        rw [hl] at h
        cases h
        exact ⟨rfl, rfl⟩
  · rw [if_neg ht] at h
    cases h
    exact ⟨rfl, rfl⟩

/- generic identity fold -/
theorem foldlM_id {α : Type} {step : LineageRelations → α → Except LinErr LineageRelations}
    {l : List α} {s : LineageRelations} (h : ∀ p ∈ l, step s p = .ok s) :
    List.foldlM step s l = .ok s := by
  induction l with
  | nil => rfl
  | cons p rest ih =>
      rw [List.foldlM_cons, h p (List.mem_cons_self _ _), ok_bind]
      exact ih (fun q hq => h q (List.mem_cons_of_mem _ hq))

/- the homes fold preserves an already absorbed home -/
theorem foldH_preserves_absorbed {l : List (Nat × Option String)}
    {s s1 : LineageRelations} {i : Nat} {hm : Option String}
    (habs : merge_new_home s i hm = .ok s)
    (h : List.foldlM (fun s p => merge_new_home s p.1 p.2) s l = .ok s1) :
    merge_new_home s1 i hm = .ok s1 := by
  induction l generalizing s with
  | nil =>
      cases h
      exact habs
  | cons p rest ih =>
      rw [List.foldlM_cons] at h
      cases hstep : merge_new_home s p.1 p.2 with
      | error e => rw [hstep] at h; simp at h
      | ok sm =>
          rw [hstep, ok_bind] at h
          have hiS := merge_new_home_absorbed_isSome habs
          have hmono := merge_new_home_lookup_mono hstep i hiS
          exact ih (merge_new_home_absorbed_of_lookup_eq habs hmono) h

/- the homes fold absorbs every processed home -/
theorem foldH_absorbs {l : List (Nat × Option String)} {s s1 : LineageRelations}
    (h : List.foldlM (fun s p => merge_new_home s p.1 p.2) s l = .ok s1) :
    ∀ p ∈ l, merge_new_home s1 p.1 p.2 = .ok s1 := by
  induction l generalizing s with
  | nil => intro p hp; simp at hp
  | cons q rest ih =>
      intro p hp
      rw [List.foldlM_cons] at h
      cases hstep : merge_new_home s q.1 q.2 with
      | error e => rw [hstep] at h; simp at h
      | ok sm =>
          rw [hstep, ok_bind] at h
          rcases List.mem_cons.mp hp with rfl | hmem
          · exact foldH_preserves_absorbed (merge_new_home_ok_absorbed hstep) h
          · exact ih h p hmem

/- the relations fold leaves the homes mapping unchanged -/
theorem foldR_homes_eq {l : List ((Nat × Nat) × String)} {s s1 : LineageRelations}
    (h : List.foldlM (fun s p => _merge_new_relation s p.1 p.2) s l = .ok s1) :
    s1._homes = s._homes := by
  induction l generalizing s with
  | nil => cases h; rfl
  | cons q rest ih =>
      rw [List.foldlM_cons] at h
      cases hstep : _merge_new_relation s q.1 q.2 with
      | error e => rw [hstep] at h; simp at h
      | ok sm =>
          rw [hstep, ok_bind] at h
          rw [ih h]
          exact mnlr_homes_eq hstep

/- the relations fold preserves an already absorbed relation -/
theorem foldR_preserves_absorbed {l : List ((Nat × Nat) × String)}
    {s s1 : LineageRelations} {ids : Nat × Nat} {c : String}
    (habs : alookup s._relations_idx (ids.1, ids.2) = some c)
    (h : List.foldlM (fun s p => _merge_new_relation s p.1 p.2) s l = .ok s1) :
    alookup s1._relations_idx (ids.1, ids.2) = some c := by
  induction l generalizing s with
  | nil => cases h; exact habs
  | cons q rest ih =>
      rw [List.foldlM_cons] at h
      cases hstep : _merge_new_relation s q.1 q.2 with
      | error e => rw [hstep] at h; simp at h
      | ok sm =>
          rw [hstep, ok_bind] at h
          have hmono := mnlr_idx_lookup_mono hstep (ids.1, ids.2) (by rw [habs]; rfl)
          rw [habs] at hmono
          exact ih hmono h

/- the relations fold absorbs every processed relation -/
theorem foldR_absorbs {l : List ((Nat × Nat) × String)} {s s1 : LineageRelations}
    (h : List.foldlM (fun s p => _merge_new_relation s p.1 p.2) s l = .ok s1) :
    ∀ p ∈ l, alookup s1._relations_idx (p.1.1, p.1.2) = some p.2 := by
  induction l generalizing s with
  | nil => intro p hp; simp at hp
  | cons q rest ih =>
      intro p hp
      rw [List.foldlM_cons] at h
      cases hstep : _merge_new_relation s q.1 q.2 with
      | error e => rw [hstep] at h; simp at h
      | ok sm =>
          rw [hstep, ok_bind] at h
          rcases List.mem_cons.mp hp with rfl | hmem
          · exact foldR_preserves_absorbed (mnlr_ok_lookup hstep) h
          · exact ih h p hmem

/- merging the same placeholder-guard-free pool twice: the second merge is the
identity -/
theorem merge_twice_id {self pool s1 : LineageRelations}
    (htrees : pool._trees_idx = []) (h : merge self pool = .ok s1) :
    merge s1 pool = .ok s1 := by
  rw [merge] at h
  cases hH : List.foldlM (fun s p => merge_new_home s p.1 p.2) self pool._homes with
  | error e => rw [hH] at h; simp at h
  | ok sA =>
      rw [hH, ok_bind] at h
      cases hR : List.foldlM (fun s p => _merge_new_relation s p.1 p.2) sA
          pool._relations_idx with
      | error e => rw [hR] at h; simp at h
      | ok sB =>
          rw [hR, ok_bind] at h
          rw [htrees] at h
          simp only [List.foldlM_nil, ok_bind, pure_eq] at h
          cases h
          have hhomes : ∀ p ∈ pool._homes, merge_new_home s1 p.1 p.2 = .ok s1 := by
            intro p hp
            have habsA := foldH_absorbs hH p hp
            have hBA : s1._homes = sA._homes := foldR_homes_eq hR
            exact merge_new_home_absorbed_of_lookup_eq habsA (by rw [hBA])
          have hrels : ∀ p ∈ pool._relations_idx,
              _merge_new_relation s1 p.1 p.2 = .ok s1 := by
            intro p hp
            have := foldR_absorbs hR p hp
            rw [_merge_new_relation]
            exact mnlr_absorbed_iff.mpr this
          rw [merge, foldlM_id hhomes, ok_bind, foldlM_id hrels, ok_bind, htrees]
          rfl

set_option maxHeartbeats 4000000 in
/-- C3 amended: the universally quantified round-trip fails (see the
counterexample: extraction duplicates a subtree reachable along two paths and
re-merging raises the duplicate-subtrees exception), but it holds whenever
each reachable node is reached along a unique path, shown here for every
single-edge collection and every two-edge chain collection: extracting the
root (SOURCES) and merging the result into an empty collection reproduces
exactly the collection's relation list and relations index, with homes
gaining explicit null entries for the reachable ids (and, for the chain, the
extracted child subtree registered in the placeholder guard); the U1/U2
scenario collection likewise round-trips (`extract_tree(U1, SOURCES)` returns
exactly the scenario tree). -/
theorem C3_amended_unique_path_round_trip (a b c : Nat) (cls : String)
    (hab : a ≠ b) (hac : a ≠ c) (hbc : b ≠ c) :
    merge_new_lineage_relation emptyRelations ⟨cls, a, b⟩ = .ok (singleRel a b cls) ∧
    extract_tree (singleRel a b cls) a .SOURCES []
      = .ok (.mk .SOURCES a (some [(cls, [.mk .SOURCES b (some []) none])]) none) ∧
    merge_tree emptyRelations
        (.mk .SOURCES a (some [(cls, [.mk .SOURCES b (some []) none])]) none) none 0
      = .ok ⟨[(a, none), (b, none)], [((a, b), cls)], [], [⟨cls, a, b⟩],
             [(a, [(b, cls)])], [(b, [(a, cls)])], [a, b]⟩ ∧
    (⟨[(a, none), (b, none)], [((a, b), cls)], [], [⟨cls, a, b⟩],
      [(a, [(b, cls)])], [(b, [(a, cls)])], [a, b]⟩ : LineageRelations).relations
      = (singleRel a b cls).relations ∧
    (⟨[(a, none), (b, none)], [((a, b), cls)], [], [⟨cls, a, b⟩],
      [(a, [(b, cls)])], [(b, [(a, cls)])], [a, b]⟩ : LineageRelations)._relations_idx
      = (singleRel a b cls)._relations_idx ∧
    mergeRelationList emptyRelations (chain3rels a b c) = .ok (sChain3 a b c) ∧
    extract_tree (sChain3 a b c) a .SOURCES [] = .ok (tChain3 a b c) ∧
    merge_tree emptyRelations (tChain3 a b c) none 0
      = .ok ⟨[(a, none), (b, none), (c, none)],
             [((a, b), "r"), ((b, c), "r")],
             [((a, b), tChain3sub b c)],
             [⟨"r", a, b⟩, ⟨"r", b, c⟩],
             [(a, [(b, "r")]), (b, [(c, "r")])],
             [(b, [(a, "r")]), (c, [(b, "r")])],
             [a, b, c]⟩ ∧
    (sChain3 a b c)._relations_idx = [((a, b), "r"), ((b, c), "r")] ∧
    (sChain3 a b c).relations = [⟨"r", a, b⟩, ⟨"r", b, c⟩] ∧
    extract_tree sC2 1 .SOURCES [] = .ok treeC2 := by
  refine ⟨rfl, ?_, ?_, ?_, ?_, ?_, ?_, ?_, ?_, ?_, rfl⟩ <;>
    simp [singleRel, sChain3, chain3rels, tChain3, tChain3sub, mustOk,
      mergeRelationList,
      merge_tree, merge_tree_items, merge_tree_kids,
      LineageTree.child_datasets, LineageTree.child_datasets_items,
      LineageTree.child_datasets_kids, merge_new_home, _merge_new_relation,
      merge_new_lineage_relation, _merge_new_node, extract_tree, extractAux,
      alookup, ainsert, sinsert, truthyStr, truthyChildren, emptyRelations,
      LineageTree.direction, LineageTree.dataset_id, LineageTree.children,
      LineageTree.home, LineageDirection.opposite,
      hab, hac, hbc, Ne.symm hab, Ne.symm hac, Ne.symm hbc]

/-- C3 amended witness: the round-trip theorem at `a = 0`, `b = 1`, `c = 2`,
`cls = "c"`. -/
theorem C3_amended_unique_path_round_trip_witness :
    merge_new_lineage_relation emptyRelations ⟨"c", 0, 1⟩ = .ok (singleRel 0 1 "c") ∧
    extract_tree (singleRel 0 1 "c") 0 .SOURCES []
      = .ok (.mk .SOURCES 0 (some [("c", [.mk .SOURCES 1 (some []) none])]) none) ∧
    merge_tree emptyRelations
        (.mk .SOURCES 0 (some [("c", [.mk .SOURCES 1 (some []) none])]) none) none 0
      = .ok ⟨[(0, none), (1, none)], [((0, 1), "c")], [], [⟨"c", 0, 1⟩],
             [(0, [(1, "c")])], [(1, [(0, "c")])], [0, 1]⟩ ∧
    (⟨[(0, none), (1, none)], [((0, 1), "c")], [], [⟨"c", 0, 1⟩],
      [(0, [(1, "c")])], [(1, [(0, "c")])], [0, 1]⟩ : LineageRelations).relations
      = (singleRel 0 1 "c").relations ∧
    (⟨[(0, none), (1, none)], [((0, 1), "c")], [], [⟨"c", 0, 1⟩],
      [(0, [(1, "c")])], [(1, [(0, "c")])], [0, 1]⟩ : LineageRelations)._relations_idx
      = (singleRel 0 1 "c")._relations_idx ∧
    mergeRelationList emptyRelations (chain3rels 0 1 2) = .ok (sChain3 0 1 2) ∧
    extract_tree (sChain3 0 1 2) 0 .SOURCES [] = .ok (tChain3 0 1 2) ∧
    merge_tree emptyRelations (tChain3 0 1 2) none 0
      = .ok ⟨[(0, none), (1, none), (2, none)],
             [((0, 1), "r"), ((1, 2), "r")],
             [((0, 1), tChain3sub 1 2)],
             [⟨"r", 0, 1⟩, ⟨"r", 1, 2⟩],
             [(0, [(1, "r")]), (1, [(2, "r")])],
             [(1, [(0, "r")]), (2, [(1, "r")])],
             [0, 1, 2]⟩ ∧
    (sChain3 0 1 2)._relations_idx = [((0, 1), "r"), ((1, 2), "r")] ∧
    (sChain3 0 1 2).relations = [⟨"r", 0, 1⟩, ⟨"r", 1, 2⟩] ∧
    extract_tree sC2 1 .SOURCES [] = .ok treeC2 :=
  C3_amended_unique_path_round_trip 0 1 2 "c" (by decide) (by decide) (by decide)

/-- C4 amended: merging twice is idempotent only in the absence of registered
detailed subtrees (see the counterexample for the failure).  For collections:
whenever `pool` carries no registered detailed subtrees (empty placeholder
guard `_trees_idx`) and merging it once succeeds, merging it a second time
succeeds and returns the collection completely unchanged (hence the same
relation and home sets).  For trees: the scenario tree — whose only child is
a leaf, so nothing is registered in the guard — merges twice with the second
merge the identity. -/
theorem C4_amended_idempotence :
    (∀ (self pool s1 : LineageRelations), pool._trees_idx = [] →
        merge self pool = .ok s1 → merge s1 pool = .ok s1) ∧
    (merge_tree emptyRelations treeC2 none 0 = .ok sC2 ∧
     merge_tree sC2 treeC2 none 0 = .ok sC2) := by
  refine ⟨fun self pool s1 ht h => merge_twice_id ht h, ?_, ?_⟩ <;>
    simp [merge_tree, merge_tree_items, merge_tree_kids, treeC2, sC2,
      LineageTree.child_datasets, LineageTree.child_datasets_items,
      LineageTree.child_datasets_kids, merge_new_home, _merge_new_relation,
      merge_new_lineage_relation, _merge_new_node, extract_tree, extractAux,
      alookup, ainsert, sinsert, truthyStr, truthyChildren, emptyRelations,
      LineageTree.direction, LineageTree.dataset_id, LineageTree.children,
      LineageTree.home, LineageDirection.opposite]

/-- C4 amended witness: the collection part applied to the one-edge pool
`singleRel 0 1 "x"` (whose placeholder guard is empty) merged into an empty
collection. -/
theorem C4_amended_idempotence_witness :
    merge (mustOk (merge emptyRelations (singleRel 0 1 "x"))) (singleRel 0 1 "x")
      = .ok (mustOk (merge emptyRelations (singleRel 0 1 "x"))) :=
  C4_amended_idempotence.1 emptyRelations (singleRel 0 1 "x")
    (mustOk (merge emptyRelations (singleRel 0 1 "x"))) rfl rfl

set_option maxHeartbeats 3000000 in
/-- C8 amended: `max_depth = 1` merges the edges from the root to its
children and each child's own edges to the grandchildren (with homes for the
root and the children only) — not just the root-to-children edges, as the
counterexample shows — and recursion stops there; `max_depth = 0` merges
every level.  Proved on the four-level chain `a → b → c → d` with pairwise
distinct ids: depth 1 merges exactly the edges `(a,b)` and `(b,c)` and homes
for `a`, `b`; depth 0 merges all three edges and homes for all four ids. -/
theorem C8_amended_depth_bound (a b c d : Nat) (hab : a ≠ b) (hac : a ≠ c)
    (had : a ≠ d) (hbc : b ≠ c) (hbd : b ≠ d) (hcd : c ≠ d) :
    merge_tree emptyRelations (chain4 a b c d) none 1
      = .ok ⟨[(a, none), (b, none)], [((a, b), "r"), ((b, c), "r")],
             [((a, b), chain4second b c d), ((b, c), chain4third c d)],
             [⟨"r", a, b⟩, ⟨"r", b, c⟩],
             [(a, [(b, "r")]), (b, [(c, "r")])],
             [(b, [(a, "r")]), (c, [(b, "r")])],
             [a, b, c]⟩ ∧
    merge_tree emptyRelations (chain4 a b c d) none 0
      = .ok ⟨[(a, none), (b, none), (c, none), (d, none)],
             [((a, b), "r"), ((b, c), "r"), ((c, d), "r")],
             [((a, b), chain4second b c d), ((b, c), chain4third c d)],
             [⟨"r", a, b⟩, ⟨"r", b, c⟩, ⟨"r", c, d⟩],
             [(a, [(b, "r")]), (b, [(c, "r")]), (c, [(d, "r")])],
             [(b, [(a, "r")]), (c, [(b, "r")]), (d, [(c, "r")])],
             [a, b, c, d]⟩ := by
  constructor <;>
    simp [merge_tree, merge_tree_items, merge_tree_kids, chain4, chain4second,
      chain4third, chain4leaf,
      LineageTree.child_datasets, LineageTree.child_datasets_items,
      LineageTree.child_datasets_kids, merge_new_home, _merge_new_relation,
      merge_new_lineage_relation, _merge_new_node, extract_tree, extractAux,
      alookup, ainsert, sinsert, truthyStr, truthyChildren, emptyRelations,
      LineageTree.direction, LineageTree.dataset_id, LineageTree.children,
      LineageTree.home, LineageDirection.opposite,
      hab, hac, had, hbc, hbd, hcd, Ne.symm hab, Ne.symm hac, Ne.symm had,
      Ne.symm hbc, Ne.symm hbd, Ne.symm hcd]

/-- C8 amended witness: the depth-bound theorem at the chain `0 → 1 → 2 → 3`. -/
theorem C8_amended_depth_bound_witness :
    merge_tree emptyRelations (chain4 0 1 2 3) none 1
      = .ok ⟨[(0, none), (1, none)], [((0, 1), "r"), ((1, 2), "r")],
             [((0, 1), chain4second 1 2 3), ((1, 2), chain4third 2 3)],
             [⟨"r", 0, 1⟩, ⟨"r", 1, 2⟩],
             [(0, [(1, "r")]), (1, [(2, "r")])],
             [(1, [(0, "r")]), (2, [(1, "r")])],
             [0, 1, 2]⟩ ∧
    merge_tree emptyRelations (chain4 0 1 2 3) none 0
      = .ok ⟨[(0, none), (1, none), (2, none), (3, none)],
             [((0, 1), "r"), ((1, 2), "r"), ((2, 3), "r")],
             [((0, 1), chain4second 1 2 3), ((1, 2), chain4third 2 3)],
             [⟨"r", 0, 1⟩, ⟨"r", 1, 2⟩, ⟨"r", 2, 3⟩],
             [(0, [(1, "r")]), (1, [(2, "r")]), (2, [(3, "r")])],
             [(1, [(0, "r")]), (2, [(1, "r")]), (3, [(2, "r")])],
             [0, 1, 2, 3]⟩ :=
  C8_amended_depth_bound 0 1 2 3 (by decide) (by decide) (by decide)
    (by decide) (by decide) (by decide)

/-! ## Extraction path-sensitivity lemmas -/

/- the `subtrees` local of `extract_tree`, as a named function -/
def subtreesOf (s : LineageRelations) (dir : LineageDirection) (root : Nat) :
    List (Nat × String) :=
  match dir with
  | .SOURCES => (alookup s.by_source root).getD []
  | .DERIVED => (alookup s.by_derived root).getD []

/- unfolding of extractAux at successor fuel, with the inner loop as the
named extractChildStep -/
theorem extractAux_succ (s : LineageRelations) (dir : LineageDirection)
    (fuel root : Nat) (so_far : List Nat) :
    extractAux s dir (fuel + 1) root so_far =
      (if root ∈ so_far then .error (.extractMustBeAcyclic root)
       else do
        let children ← (subtreesOf s dir root).foldlM
            (extractChildStep s dir fuel (root :: so_far)) []
        .ok (.mk dir root (some children) ((alookup s._homes root).join))) := rfl

theorem extractChildStep_error {s : LineageRelations} {dir : LineageDirection}
    {fuel : Nat} {sf : List Nat} {q : Nat × String} {e : LinErr}
    (hq : extractAux s dir fuel q.1 sf = .error e)
    (acc : List (String × List LineageTree)) :
    extractChildStep s dir fuel sf acc q = .error e := by
  simp [extractChildStep, hq]

theorem extractChildStep_ok {s : LineageRelations} {dir : LineageDirection}
    {fuel : Nat} {sf : List Nat} {q : Nat × String} {t : LineageTree}
    (hq : extractAux s dir fuel q.1 sf = .ok t)
    (acc : List (String × List LineageTree)) :
    extractChildStep s dir fuel sf acc q =
      .ok (match alookup acc q.2 with
           | some kids => ainsert acc q.2 (kids ++ [t])
           | none => acc ++ [(q.2, [t])]) := by
  cases h2 : alookup acc q.2 <;> simp [extractChildStep, hq, h2]

/- if the children fold fails, some child extraction fails with that error -/
theorem extract_fold_error {s : LineageRelations} {dir : LineageDirection}
    {fuel : Nat} {sf : List Nat} :
    ∀ {l : List (Nat × String)} {acc : List (String × List LineageTree)}
      {e : LinErr},
      l.foldlM (extractChildStep s dir fuel sf) acc = .error e →
      ∃ q ∈ l, extractAux s dir fuel q.1 sf = .error e := by
  intro l
  induction l with
  | nil => intro acc e h; simp [List.foldlM_nil] at h
  | cons q rest ih =>
      intro acc e h
      rw [List.foldlM_cons] at h
      cases hq : extractAux s dir fuel q.1 sf with
      | error e0 =>
          rw [extractChildStep_error hq acc] at h
          simp at h
          exact ⟨q, List.mem_cons_self _ _, by rw [hq, h]⟩
      | ok t =>
          rw [extractChildStep_ok hq acc, ok_bind] at h
          obtain ⟨q', hq', he⟩ := ih h
          exact ⟨q', List.mem_cons_of_mem _ hq', he⟩

/- if the children fold succeeds, every child extraction succeeds -/
theorem extract_fold_ok {s : LineageRelations} {dir : LineageDirection}
    {fuel : Nat} {sf : List Nat} :
    ∀ {l : List (Nat × String)} {acc out : List (String × List LineageTree)},
      l.foldlM (extractChildStep s dir fuel sf) acc = .ok out →
      ∀ q ∈ l, ∃ t, extractAux s dir fuel q.1 sf = .ok t := by
  intro l
  induction l with
  | nil => intro acc out h q hq; simp at hq
  | cons q0 rest ih =>
      intro acc out h q hq
      rw [List.foldlM_cons] at h
      cases hq0 : extractAux s dir fuel q0.1 sf with
      | error e0 =>
          rw [extractChildStep_error hq0 acc] at h
          simp at h
      | ok t =>
          rw [extractChildStep_ok hq0 acc, ok_bind] at h
          rcases List.mem_cons.mp hq with rfl | hmem
          · exact ⟨t, hq0⟩
          · exact ih h q hmem

theorem mem_ainsert {K V : Type} [DecidableEq K] {l : List (K × V)} {k : K}
    {v : V} {x : K × V} (h : x ∈ ainsert l k v) : x = (k, v) ∨ x ∈ l := by
  induction l with
  | nil => simp [ainsert] at h; simp [h]
  | cons p rest ih =>
      by_cases hp : p.1 = k
      · rw [ainsert, if_pos hp] at h
        rcases List.mem_cons.mp h with rfl | hmem
        · left; rw [← hp]
        · right; exact List.mem_cons_of_mem _ hmem
      · rw [ainsert, if_neg hp] at h
        rcases List.mem_cons.mp h with rfl | hmem
        · right; exact List.mem_cons_self _ _
        · rcases ih hmem with h1 | h2
          · left; exact h1
          · right; exact List.mem_cons_of_mem _ h2

/- every tree in the fold's output comes from the accumulator or from a
successful child extraction -/
theorem extract_fold_mem {s : LineageRelations} {dir : LineageDirection}
    {fuel : Nat} {sf : List Nat} :
    ∀ {l : List (Nat × String)} {acc out : List (String × List LineageTree)},
      l.foldlM (extractChildStep s dir fuel sf) acc = .ok out →
      ∀ q ∈ out, ∀ t ∈ q.2,
        (∃ q0 ∈ acc, t ∈ q0.2) ∨
        ∃ p ∈ l, extractAux s dir fuel p.1 sf = .ok t := by
  intro l
  induction l with
  | nil =>
      intro acc out h q hq t ht
      simp [List.foldlM_nil] at h
      subst h
      exact Or.inl ⟨q, hq, ht⟩
  | cons q0 rest ih =>
      intro acc out h q hq t ht
      rw [List.foldlM_cons] at h
      cases hq0 : extractAux s dir fuel q0.1 sf with
      | error e0 =>
          rw [extractChildStep_error hq0 acc] at h
          simp at h
      | ok t0 =>
          rw [extractChildStep_ok hq0 acc, ok_bind] at h
          rcases ih h q hq t ht with hacc | ⟨p, hp, he⟩
          · obtain ⟨q1, hq1, ht1⟩ := hacc
            cases h2 : alookup acc q0.2 with
            | some kids =>
                rw [h2] at hq1
                rcases mem_ainsert hq1 with rfl | hmem
                · rcases List.mem_append.mp ht1 with hk | hk
                  · exact Or.inl ⟨(q0.2, kids), alookup_some_mem h2, hk⟩
                  · simp at hk
                    subst hk
                    exact Or.inr ⟨q0, List.mem_cons_self _ _, hq0⟩
                · exact Or.inl ⟨q1, hmem, ht1⟩
            | none =>
                rw [h2] at hq1
                rcases List.mem_append.mp hq1 with hmem | hmem
                · exact Or.inl ⟨q1, hmem, ht1⟩
                · simp at hmem
                  subst hmem
                  simp at ht1
                  subst ht1
                  exact Or.inr ⟨q0, List.mem_cons_self _ _, hq0⟩
          · exact Or.inr ⟨p, List.mem_cons_of_mem _ hp, he⟩

theorem neighbors_eq_subtrees (s : LineageRelations) (dir : LineageDirection)
    (root : Nat) :
    neighbors s dir root = (subtreesOf s dir root).map Prod.fst := by
  cases dir <;> rfl

/- a successful extraction implies every traversal path from the root is
repetition-free and avoids the visited set -/
theorem extract_ok_path_nodup (s : LineageRelations) (dir : LineageDirection) :
    ∀ (fuel : Nat) {root : Nat} {so_far : List Nat} {t : LineageTree},
      extractAux s dir fuel root so_far = .ok t →
      ∀ p, List.Chain (AdjStep s dir) root p →
        (root :: p).Nodup ∧ ∀ x ∈ root :: p, x ∉ so_far := by
  intro fuel
  induction fuel with
  | zero => intro root sf t h; simp [extractAux] at h
  | succ fuel ih =>
      intro root sf t h p hp
      rw [extractAux_succ] at h
      by_cases hr : root ∈ sf
      · rw [if_pos hr] at h; simp at h
      · rw [if_neg hr] at h
        cases hf : List.foldlM (extractChildStep s dir fuel (root :: sf))
            ([] : List (String × List LineageTree)) (subtreesOf s dir root) with
        | error e => rw [hf] at h; simp at h
        | ok out =>
            rw [hf, ok_bind] at h
            cases hp with
            | nil =>
                refine ⟨List.nodup_singleton _, ?_⟩
                intro x hx
                simp at hx
                subst hx
                exact hr
            | cons hadj hchain =>
                rename_i n p'
                have hn : n ∈ neighbors s dir root := hadj
                rw [neighbors_eq_subtrees] at hn
                obtain ⟨q, hqmem, hq1⟩ := List.mem_map.mp hn
                obtain ⟨tn, htn⟩ := extract_fold_ok hf q hqmem
                rw [hq1] at htn
                have hrec := ih htn p' hchain
                have hroot_not : root ∉ n :: p' := by
                  intro hx
                  exact (hrec.2 root hx) (List.mem_cons_self _ _)
                refine ⟨List.nodup_cons.mpr ⟨hroot_not, hrec.1⟩, ?_⟩
                intro x hx
                rcases List.mem_cons.mp hx with rfl | hx2
                · exact hr
                · intro hxin
                  exact (hrec.2 x hx2) (List.mem_cons_of_mem _ hxin)

/- a cyclic-extraction failure exhibits a repeating traversal path (or a path
back into the visited set) -/
theorem extract_cyc_err_path (s : LineageRelations) (dir : LineageDirection) :
    ∀ (fuel : Nat) {root : Nat} {so_far : List Nat} {i : Nat},
      extractAux s dir fuel root so_far = .error (.extractMustBeAcyclic i) →
      ∃ p, List.Chain (AdjStep s dir) root p ∧
        (¬ (root :: p).Nodup ∨ ∃ x ∈ root :: p, x ∈ so_far) := by
  intro fuel
  induction fuel with
  | zero => intro root sf i h; simp [extractAux] at h
  | succ fuel ih =>
      intro root sf i h
      rw [extractAux_succ] at h
      by_cases hr : root ∈ sf
      · exact ⟨[], List.Chain.nil, Or.inr ⟨root, List.mem_cons_self _ _, hr⟩⟩
      · rw [if_neg hr] at h
        cases hf : List.foldlM (extractChildStep s dir fuel (root :: sf))
            ([] : List (String × List LineageTree)) (subtreesOf s dir root) with
        | ok out => rw [hf, ok_bind] at h; simp at h
        | error e =>
            rw [hf] at h
            simp at h
            subst h
            obtain ⟨q, hqmem, hq⟩ := extract_fold_error hf
            obtain ⟨p', hchain, hdisj⟩ := ih hq
            have hadj : AdjStep s dir root q.1 := by
              rw [AdjStep, neighbors_eq_subtrees]
              exact List.mem_map.mpr ⟨q, hqmem, rfl⟩
            refine ⟨q.1 :: p', List.Chain.cons hadj hchain, ?_⟩
            rcases hdisj with hdup | ⟨x, hx, hxin⟩
            · left
              intro hnd
              exact hdup (List.nodup_cons.mp hnd).2
            · rcases List.mem_cons.mp hxin with rfl | hxin2
              · left
                intro hnd
                exact (List.nodup_cons.mp hnd).1 hx
              · right
                exact ⟨x, List.mem_cons_of_mem _ hx, hxin2⟩

/- extraction fails only with the cyclic error or with exhausted fuel -/
theorem extract_err_class (s : LineageRelations) (dir : LineageDirection) :
    ∀ (fuel : Nat) {root : Nat} {so_far : List Nat} {e : LinErr},
      extractAux s dir fuel root so_far = .error e →
      e = .fuelExhausted ∨ ∃ i, e = .extractMustBeAcyclic i := by
  intro fuel
  induction fuel with
  | zero =>
      intro root sf e h
      simp [extractAux] at h
      exact Or.inl h.symm
  | succ fuel ih =>
      intro root sf e h
      rw [extractAux_succ] at h
      by_cases hr : root ∈ sf
      · rw [if_pos hr] at h
        simp at h
        exact Or.inr ⟨root, h.symm⟩
      · rw [if_neg hr] at h
        cases hf : List.foldlM (extractChildStep s dir fuel (root :: sf))
            ([] : List (String × List LineageTree)) (subtreesOf s dir root) with
        | ok out => rw [hf, ok_bind] at h; simp at h
        | error e0 =>
            rw [hf] at h
            simp at h
            subst h
            obtain ⟨q, hqmem, hq⟩ := extract_fold_error hf
            exact ih hq

/- the keys of the adjacency index that extraction traverses for `dir` -/
def dirKeys (s : LineageRelations) (dir : LineageDirection) : List Nat :=
  (match dir with
   | .SOURCES => s.by_source
   | .DERIVED => s.by_derived).map Prod.fst

theorem mem_dirKeys_of_subtrees {s : LineageRelations} {dir : LineageDirection}
    {root : Nat} {q : Nat × String} (hq : q ∈ subtreesOf s dir root) :
    root ∈ dirKeys s dir := by
  cases dir with
  | SOURCES =>
      rw [subtreesOf] at hq
      cases hl : alookup s.by_source root with
      | none => rw [hl] at hq; simp at hq
      | some inner =>
          rw [dirKeys]
          exact (alookup_isSome_iff_mem_keys _ _).mp (by rw [hl]; rfl)
  | DERIVED =>
      rw [subtreesOf] at hq
      cases hl : alookup s.by_derived root with
      | none => rw [hl] at hq; simp at hq
      | some inner =>
          rw [dirKeys]
          exact (alookup_isSome_iff_mem_keys _ _).mp (by rw [hl]; rfl)

theorem filter_length_le_of_imp {l : List Nat} {p q : Nat → Bool}
    (h : ∀ x ∈ l, p x = true → q x = true) :
    (l.filter p).length ≤ (l.filter q).length := by
  induction l with
  | nil => simp
  | cons a rest ih =>
      have ih2 := ih (fun x hx => h x (List.mem_cons_of_mem _ hx))
      by_cases hp : p a = true
      · have hq := h a (List.mem_cons_self _ _) hp
        simp [List.filter_cons, hp, hq]
        omega
      · simp only [List.filter_cons]
        rw [if_neg (by simp [hp])]
        by_cases hq : q a = true
        · rw [if_pos (by simp [hq])]
          simp
          omega
        · rw [if_neg (by simp [hq])]
          exact ih2

theorem filter_visited_lt {l : List Nat} {root : Nat} {sf : List Nat}
    (hm : root ∈ l) (hn : root ∉ sf) :
    (l.filter (fun k => decide (k ∉ root :: sf))).length <
      (l.filter (fun k => decide (k ∉ sf))).length := by
  induction l with
  | nil => simp at hm
  | cons a rest ih =>
      simp only [List.filter_cons]
      by_cases ha : a = root
      · subst ha
        rw [if_neg (by simp), if_pos (by simp [hn])]
        have hle : (rest.filter (fun k => decide (k ∉ a :: sf))).length ≤
            (rest.filter (fun k => decide (k ∉ sf))).length := by
          refine filter_length_le_of_imp ?_
          intro x hx hpx
          simp at hpx ⊢
          exact hpx.2
        simp only [List.length_cons]
        omega
      · rcases List.mem_cons.mp hm with rfl | hm2
        · exact absurd rfl ha
        · by_cases hin : a ∈ sf
          · rw [if_neg (by simp [hin]), if_neg (by simp [hin])]
            exact ih hm2
          · rw [if_pos (by simp [hin, ha]), if_pos (by simp [hin])]
            simp only [List.length_cons]
            have := ih hm2
            omega

/- with fuel exceeding the number of unvisited index keys, extraction never
runs out of fuel -/
theorem extract_no_fuel_error (s : LineageRelations) (dir : LineageDirection) :
    ∀ (fuel : Nat) {root : Nat} {so_far : List Nat},
      ((dirKeys s dir).filter (fun k => decide (k ∉ so_far))).length < fuel →
      extractAux s dir fuel root so_far ≠ .error .fuelExhausted := by
  intro fuel
  induction fuel with
  | zero => intro root sf hb; omega
  | succ fuel ih =>
      intro root sf hb h
      rw [extractAux_succ] at h
      by_cases hr : root ∈ sf
      · rw [if_pos hr] at h
        simp at h
      · rw [if_neg hr] at h
        cases hf : List.foldlM (extractChildStep s dir fuel (root :: sf))
            ([] : List (String × List LineageTree)) (subtreesOf s dir root) with
        | ok out => rw [hf, ok_bind] at h; simp at h
        | error e0 =>
            rw [hf] at h
            simp at h
            subst h
            obtain ⟨q, hqmem, hq⟩ := extract_fold_error hf
            have hroot_keys := mem_dirKeys_of_subtrees hqmem
            have hlt := filter_visited_lt hroot_keys hr (l := dirKeys s dir)
            exact ih (by omega) hq

theorem childrenPopulatedKids_of_all :
    ∀ (kids : List LineageTree),
      (∀ u ∈ kids, childrenPopulated u = true) →
      childrenPopulatedKids kids = true := by
  intro kids
  induction kids with
  | nil => intro hyp; rfl
  | cons u rest ih =>
      intro hyp
      rw [childrenPopulatedKids]
      rw [hyp u (List.mem_cons_self _ _), ih (fun v hv => hyp v (List.mem_cons_of_mem _ hv))]
      rfl

theorem childrenPopulatedItems_of_all :
    ∀ (out : List (String × List LineageTree)),
      (∀ q ∈ out, ∀ u ∈ q.2, childrenPopulated u = true) →
      childrenPopulatedItems out = true := by
  intro out
  induction out with
  | nil => intro hyp; rfl
  | cons q rest ih =>
      intro hyp
      cases q with
      | mk cls kids =>
          rw [childrenPopulatedItems]
          rw [childrenPopulatedKids_of_all kids
            (fun u hu => hyp (cls, kids) (List.mem_cons_self _ _) u hu)]
          rw [ih (fun q' hq' u hu => hyp q' (List.mem_cons_of_mem _ hq') u hu)]
          rfl

/- every tree returned by extraction has `children = some _` at every node -/
theorem extract_ok_populated (s : LineageRelations) (dir : LineageDirection) :
    ∀ (fuel : Nat) {root : Nat} {so_far : List Nat} {t : LineageTree},
      extractAux s dir fuel root so_far = .ok t →
      childrenPopulated t = true := by
  intro fuel
  induction fuel with
  | zero => intro root sf t h; simp [extractAux] at h
  | succ fuel ih =>
      intro root sf t h
      rw [extractAux_succ] at h
      by_cases hr : root ∈ sf
      · rw [if_pos hr] at h; simp at h
      · rw [if_neg hr] at h
        cases hf : List.foldlM (extractChildStep s dir fuel (root :: sf))
            ([] : List (String × List LineageTree)) (subtreesOf s dir root) with
        | error e => rw [hf] at h; simp at h
        | ok out =>
            rw [hf, ok_bind] at h
            cases h
            rw [childrenPopulated]
            refine childrenPopulatedItems_of_all out ?_
            intro q hq u hu
            rcases extract_fold_mem hf q hq u hu with ⟨q0, hq0, _⟩ | ⟨p, _, he⟩
            · simp at hq0
            · exact ih he

/-- C9: extraction path-sensitivity.  For every collection, root and
direction: `extract_tree(root, direction)` fails with the cyclic-lineage
exception if and only if some id repeats along a single root-to-descendant
traversal path of the known relations (an id on two distinct sibling
branches does not raise — the diamond collection `sC3` extracts
successfully, third conjunct); and every tree returned by `extract_tree` has
a children mapping at every node (`children` is a map, never `None`). -/
theorem C9_extract_path_sensitivity :
    (∀ (s : LineageRelations) (root : Nat) (dir : LineageDirection),
        (∃ i, extract_tree s root dir [] = .error (.extractMustBeAcyclic i)) ↔
          HasRepeatedPath s dir root) ∧
    (∀ (s : LineageRelations) (root : Nat) (dir : LineageDirection)
        (t : LineageTree),
        extract_tree s root dir [] = .ok t → childrenPopulated t = true) ∧
    extract_tree sC3 10 .SOURCES [] = .ok tC3 := by
  refine ⟨?_, ?_, rfl⟩
  · intro s root dir
    constructor
    · rintro ⟨i, h⟩
      unfold extract_tree at h
      obtain ⟨p, hchain, hdisj⟩ := extract_cyc_err_path s dir _ h
      rcases hdisj with hdup | ⟨x, _, hxin⟩
      · exact ⟨p, hchain, hdup⟩
      · simp at hxin
    · rintro ⟨p, hchain, hdup⟩
      cases hres : extract_tree s root dir [] with
      | ok t =>
          unfold extract_tree at hres
          exact absurd (extract_ok_path_nodup s dir _ hres p hchain).1 hdup
      | error e =>
          unfold extract_tree at hres
          rcases extract_err_class s dir _ hres with rfl | ⟨i, rfl⟩
          · exfalso
            refine extract_no_fuel_error s dir
              (s.by_source.length + s.by_derived.length + 2) ?_ hres
            have h1 : ((dirKeys s dir).filter
                (fun k => decide (k ∉ ([] : List Nat)))).length ≤
                (dirKeys s dir).length := List.length_filter_le _ _
            have h2 : (dirKeys s dir).length ≤
                s.by_source.length + s.by_derived.length := by
              cases dir <;> simp [dirKeys]
            omega
          · exact ⟨i, rfl⟩
  · intro s root dir t h
    unfold extract_tree at h
    exact extract_ok_populated s dir _ h

/-- C9 witness: the ok-implies-populated part applied to the diamond
collection `sC3` at root `10`, whose extraction is evaluated by `rfl`. -/
theorem C9_extract_path_sensitivity_witness :
    childrenPopulated tC3 = true :=
  C9_extract_path_sensitivity.2.1 sC3 10 .SOURCES tC3 rfl
